import Mathlib

/-!
Verification of the speech-graph analysis core
(`src/speech-graph-service/app/graph_analyzer.py`, class `SpeechGraphAnalyzer`).

The Python code is shallowly embedded: the word-adjacency graph built by
`build_speech_graph` (a `networkx.DiGraph` with integer edge weights) is
modelled as an association list of directed edges in insertion order, each
paired with its weight; floats produced by Python's true division are
modelled as rationals; dictionaries that may be empty (`aggregated_metrics`)
are modelled as `Option` of a structure.  Every definition follows the
corresponding Python function line by line.
-/

namespace SpeechGraphAnalyzer

/-- `preprocess_text` (graph_analyzer.py lines 22-32), step "split on
whitespace": Python's `str.split()` splits on runs of whitespace and drops
empty pieces.  `splitWsStep` is the fold step: a whitespace character closes
the current word, any other character is prepended to it. -/
def splitWsStep (c : Char) (acc : List (List Char)) : List (List Char) :=
  if c.isWhitespace then [] :: acc
  else
    match acc with
    | [] => [[c]]
    | w :: ws => (c :: w) :: ws

/-- Python's `str.split()` on a character list: fold with `splitWsStep`,
then drop the empty pieces produced by consecutive whitespace. -/
def pythonSplit (cs : List Char) : List String :=
  ((cs.foldr splitWsStep []).filter (fun w => !w.isEmpty)).map (fun w => String.mk w)

/-- `SpeechGraphAnalyzer.preprocess_text` (lines 22-32): lowercase, remove
every character that is not a word character, whitespace or apostrophe
(`re.sub(r"[^\w\s']", '', text)`, word characters taken as alphanumerics and
underscore), split on whitespace, and drop tokens of length at most 1 or
consisting solely of digits. -/
def preprocess_text (text : String) : List String :=
  let lowered := text.toList.map Char.toLower
  let cleaned := lowered.filter (fun c => c.isAlphanum || c == '_' || c.isWhitespace || c == '\'')
  let words := pythonSplit cleaned
  words.filter (fun w => decide (1 < w.length) && !(w.toList.all Char.isDigit))

/-- The `networkx.DiGraph` built by `build_speech_graph`, modelled as the
list of its directed edges in insertion order, each with its weight.
A key `(u, v)` occurs at most once; its weight is the stored `Nat`. -/
abbrev SpeechGraph := List ((String × String) × Nat)

/-- One step of `build_speech_graph` (lines 48-51): if the directed edge
already exists, increment its weight, otherwise append it with weight 1. -/
def addEdge (es : SpeechGraph) (e : String × String) : SpeechGraph :=
  if e ∈ es.map Prod.fst then
    es.map (fun p => if p.1 = e then (p.1, p.2 + 1) else p)
  else
    es ++ [(e, 1)]

/-- `SpeechGraphAnalyzer.build_speech_graph` (lines 34-53): fold `addEdge`
over the adjacent pairs `(words[i], words[i+1])` of the token sequence. -/
def build_speech_graph (words : List String) : SpeechGraph :=
  (words.zip words.tail).foldl addEdge []

/-- The directed edge keys of the graph, in insertion order. -/
def keys (es : SpeechGraph) : List (String × String) := es.map Prod.fst

/-- Insert a node keeping first-seen order, as `networkx` does when
`add_edge` mentions a new endpoint. -/
def insertNode (ns : List String) (x : String) : List String :=
  if x ∈ ns then ns else ns ++ [x]

/-- The node list of the graph in first-seen order over the edge stream:
each `add_edge(u, v)` registers `u` then `v`. -/
def graphNodes (es : SpeechGraph) : List String :=
  es.foldl (fun ns e => insertNode (insertNode ns e.1.1) e.1.2) []

/-- `G.number_of_nodes()`. -/
def number_of_nodes (es : SpeechGraph) : Nat := (graphNodes es).length

/-- `G.number_of_edges()`. -/
def number_of_edges (es : SpeechGraph) : Nat := es.length

/-- Directed reachability with explicit fuel: `reachN E n u v` holds when
some directed path from `u` to `v` of length at most `n` exists through the
edge keys `E`. -/
def reachN (E : List (String × String)) : Nat → String → String → Bool
  | 0, u, v => u == v
  | n + 1, u, v => u == v || E.any (fun e => e.1 == u && reachN E n e.2 v)

/-- Directed reachability: fuel `E.length` covers every vertex-simple path,
since such a path repeats no edge. -/
def reach (E : List (String × String)) (u v : String) : Bool :=
  reachN E E.length u v

/-- `G.to_undirected()` (line 127) on edge keys: keep each directed edge and
add its reverse. -/
def toUndirected (E : List (String × String)) : List (String × String) :=
  E ++ E.map (fun p => (p.2, p.1))

/-- `SpeechGraphAnalyzer.calculate_lsc` (lines 103-116):
`nx.strongly_connected_components` partitions the nodes into classes of
mutual directed reachability; the method returns the size of the largest.
Here the class of `u` is the set of nodes `v` with `reach u v` and
`reach v u`, and the result is the maximum class size over all nodes
(0 for the empty graph, as in the guard on line 109). -/
def calculate_lsc (es : SpeechGraph) : Nat :=
  if number_of_nodes es = 0 then 0
  else
    ((graphNodes es).map (fun u =>
      ((graphNodes es).filter
        (fun v => reach (keys es) u v && reach (keys es) v u)).length)).foldr max 0

/-- `SpeechGraphAnalyzer.calculate_lcc` (lines 118-133): size of the largest
connected component of the undirected projection, via reachability in the
symmetrised edge list (0 for the empty graph, guard on line 123). -/
def calculate_lcc (es : SpeechGraph) : Nat :=
  if number_of_nodes es = 0 then 0
  else
    ((graphNodes es).map (fun u =>
      ((graphNodes es).filter
        (fun v => reach (toUndirected (keys es)) u v)).length)).foldr max 0

/-- The `loops` dictionary `{L1, L2, L3}` of `count_loops`. -/
structure Loops where
  L1 : Nat
  L2 : Nat
  L3 : Nat
deriving DecidableEq

/-- Membership of a directed edge key, used by the cycle counts. -/
def hasEdge (E : List (String × String)) (u v : String) : Bool :=
  E.contains (u, v)

/-- All pairs `(x, y)` with `x` strictly before `y` in the node list; over
the duplicate-free node list this enumerates each unordered node pair once. -/
def orderedPairs : List String → List (String × String)
  | [] => []
  | x :: xs => xs.map (fun y => (x, y)) ++ orderedPairs xs

/-- All triples `(x, y, z)` with `x`, `y`, `z` in list order; over the
duplicate-free node list this enumerates each unordered node triple once. -/
def orderedTriples : List String → List (String × String × String)
  | [] => []
  | x :: xs => (orderedPairs xs).map (fun p => (x, p.1, p.2)) ++ orderedTriples xs

/-- `SpeechGraphAnalyzer.count_loops` (lines 135-161).
`L1 = nx.number_of_selfloops(G)` is the number of self-loop edges, i.e. of
distinct nodes `u` with an edge `u → u`.  `L2` and `L3` count the elementary
cycles of `nx.simple_cycles(G)` with exactly 2 and 3 distinct nodes: a
2-cycle is an unordered pair of distinct nodes with both directed edges, a
3-cycle is an unordered triple carrying one of its two cyclic orientations
(each orientation is one elementary cycle).  The enumeration here is total,
so the `except` safety cutoff of lines 158-159 never fires in the model. -/
def count_loops (es : SpeechGraph) : Loops :=
  let E := keys es
  let ns := graphNodes es
  { L1 := (E.filter (fun p => p.1 == p.2)).length
    L2 := ((orderedPairs ns).filter
        (fun p => !(p.1 == p.2) && hasEdge E p.1 p.2 && hasEdge E p.2 p.1)).length
    L3 := ((orderedTriples ns).map (fun t =>
        (if hasEdge E t.1 t.2.1 && hasEdge E t.2.1 t.2.2 && hasEdge E t.2.2 t.1
          then 1 else 0) +
        (if hasEdge E t.1 t.2.2 && hasEdge E t.2.2 t.2.1 && hasEdge E t.2.1 t.1
          then 1 else 0))).sum }

/-- `SpeechGraphAnalyzer.count_parallel_edges` (lines 163-173): number of
distinct directed edges whose weight exceeds 1. -/
def count_parallel_edges (es : SpeechGraph) : Nat :=
  (es.filter (fun e => decide (1 < e.2))).length

/-- `nx.density(G)` for a directed graph: `m / (n * (n - 1))`, and 0 when
`m = 0` or `n <= 1`. -/
def nx_density (es : SpeechGraph) : ℚ :=
  let n := number_of_nodes es
  let m := number_of_edges es
  if m = 0 ∨ n ≤ 1 then 0 else (m : ℚ) / ((n : ℚ) * ((n : ℚ) - 1))

/-- `G.degree(n)` on a `networkx.DiGraph`: in-degree plus out-degree, both
counting edges (a self-loop contributes 1 to each). -/
def degree (es : SpeechGraph) (n : String) : Nat :=
  ((keys es).filter (fun p => p.1 == n)).length +
    ((keys es).filter (fun p => p.2 == n)).length

/-- `sum(dict(G.degree()).values())` (line 100): total degree over the node
list. -/
def degreeSum (es : SpeechGraph) : Nat :=
  ((graphNodes es).map (degree es)).sum

/-- The per-window metrics dictionary of `analyze_window`. -/
structure Metrics where
  nodes : Nat
  edges : Nat
  lsc : Nat
  lcc : Nat
  loops : Loops
  parallel_edges : Nat
  density : ℚ
  avg_degree : ℚ
deriving DecidableEq

/-- The all-zero metrics dictionary returned for an empty word list
(lines 78-88). -/
def zeroMetrics : Metrics :=
  { nodes := 0, edges := 0, lsc := 0, lcc := 0, loops := ⟨0, 0, 0⟩
    parallel_edges := 0, density := 0, avg_degree := 0 }

/-- `SpeechGraphAnalyzer.analyze_window` (lines 76-101). -/
def analyze_window (words : List String) : Metrics :=
  if words = [] then zeroMetrics
  else
    let G := build_speech_graph words
    { nodes := number_of_nodes G
      edges := number_of_edges G
      lsc := calculate_lsc G
      lcc := calculate_lcc G
      loops := count_loops G
      parallel_edges := count_parallel_edges G
      density := if 0 < number_of_nodes G then nx_density G else 0
      avg_degree :=
        if 0 < number_of_nodes G then (degreeSum G : ℚ) / (number_of_nodes G : ℚ)
        else 0 }

/-- One entry of the window-metrics list: the metrics dictionary, plus the
`window_start` / `window_end` keys, which `sliding_window_analysis` attaches
only on the long-text path (lines 70-71) and not on the short-text path
(line 64). -/
structure WindowRecord where
  metrics : Metrics
  window_start : Option Nat
  window_end : Option Nat
deriving DecidableEq

/-- `SpeechGraphAnalyzer.sliding_window_analysis` (lines 55-74), with the
window size `W` and step size `S` of the analyzer (defaults 30 and 3).
Fewer than `W` tokens: a single record over the whole sequence, with no
offsets.  Otherwise one record per `start` in `range(0, N - W + 1, S)`,
which is `k * S` for `k < (N - W) / S + 1`, over the slice
`words[start : start + W]` with offsets attached. -/
def sliding_window_analysis (W S : Nat) (text : String) : List WindowRecord :=
  let words := preprocess_text text
  if words.length < W then
    [{ metrics := analyze_window words, window_start := none, window_end := none }]
  else
    (List.range ((words.length - W) / S + 1)).map (fun k =>
      let i := k * S
      { metrics := analyze_window ((words.drop i).take W)
        window_start := some i
        window_end := some (i + W) })

/-- The aggregate of `_aggregate_window_metrics` when the window list is
nonempty: avg/min/max of each of the six numeric fields. -/
structure AggregatedMetrics where
  avg_nodes : ℚ
  min_nodes : ℚ
  max_nodes : ℚ
  avg_edges : ℚ
  min_edges : ℚ
  max_edges : ℚ
  avg_lsc : ℚ
  min_lsc : ℚ
  max_lsc : ℚ
  avg_lcc : ℚ
  min_lcc : ℚ
  max_lcc : ℚ
  avg_density : ℚ
  min_density : ℚ
  max_density : ℚ
  avg_avg_degree : ℚ
  min_avg_degree : ℚ
  max_avg_degree : ℚ
deriving DecidableEq

/-- Python's `min(values)` on a nonempty list (0 on `[]`, a case the
aggregator never reaches since it only runs on nonempty window lists). -/
def listMin : List ℚ → ℚ
  | [] => 0
  | x :: xs => xs.foldl min x

/-- Python's `max(values)` on a nonempty list (0 on `[]`, unreached). -/
def listMax : List ℚ → ℚ
  | [] => 0
  | x :: xs => xs.foldl max x

/-- `sum(values) / len(values)` with the `if values else 0` guard of
line 270. -/
def listAvg (l : List ℚ) : ℚ :=
  if l.length = 0 then 0 else l.sum / (l.length : ℚ)

/-- `SpeechGraphAnalyzer._aggregate_window_metrics` (lines 260-274): the
empty window list yields the empty dictionary (`none`); otherwise a
dictionary with avg/min/max of each of the six numeric fields, every record
contributing (all records carry all six keys). -/
def aggregate_window_metrics (ws : List Metrics) : Option AggregatedMetrics :=
  if ws = [] then none
  else some
    { avg_nodes := listAvg (ws.map (fun w => (w.nodes : ℚ)))
      min_nodes := listMin (ws.map (fun w => (w.nodes : ℚ)))
      max_nodes := listMax (ws.map (fun w => (w.nodes : ℚ)))
      avg_edges := listAvg (ws.map (fun w => (w.edges : ℚ)))
      min_edges := listMin (ws.map (fun w => (w.edges : ℚ)))
      max_edges := listMax (ws.map (fun w => (w.edges : ℚ)))
      avg_lsc := listAvg (ws.map (fun w => (w.lsc : ℚ)))
      min_lsc := listMin (ws.map (fun w => (w.lsc : ℚ)))
      max_lsc := listMax (ws.map (fun w => (w.lsc : ℚ)))
      avg_lcc := listAvg (ws.map (fun w => (w.lcc : ℚ)))
      min_lcc := listMin (ws.map (fun w => (w.lcc : ℚ)))
      max_lcc := listMax (ws.map (fun w => (w.lcc : ℚ)))
      avg_density := listAvg (ws.map (fun w => w.density))
      min_density := listMin (ws.map (fun w => w.density))
      max_density := listMax (ws.map (fun w => w.density))
      avg_avg_degree := listAvg (ws.map (fun w => w.avg_degree))
      min_avg_degree := listMin (ws.map (fun w => w.avg_degree))
      max_avg_degree := listMax (ws.map (fun w => w.avg_degree)) }

/-- One node entry of the D3 visualization data (lines 185-194). -/
structure VizNode where
  id : Nat
  word : String
  degree : Nat
  in_degree : Nat
  out_degree : Nat
deriving DecidableEq

/-- One link entry of the D3 visualization data (lines 196-203). -/
structure VizLink where
  source : Nat
  target : Nat
  weight : Nat
deriving DecidableEq

/-- The `{nodes, links}` visualization dictionary. -/
structure VizData where
  nodes : List VizNode
  links : List VizLink
deriving DecidableEq

/-- `SpeechGraphAnalyzer.generate_visualization_data` (lines 175-208):
nodes indexed in the graph's node order (first-seen), links in edge order
with endpoint indices looked up in that node order. -/
def generate_visualization_data (words : List String) : VizData :=
  let G := build_speech_graph words
  let ns := graphNodes G
  { nodes := ns.enum.map (fun p =>
      { id := p.1, word := p.2, degree := degree G p.2
        in_degree := ((keys G).filter (fun q => q.2 == p.2)).length
        out_degree := ((keys G).filter (fun q => q.1 == p.2)).length })
    links := G.map (fun e =>
      { source := ns.indexOf e.1.1, target := ns.indexOf e.1.2, weight := e.2 }) }

/-- The dictionary returned by `analyze_full_transcript`. -/
structure AnalysisResult where
  full_metrics : Metrics
  window_metrics : List WindowRecord
  aggregated_metrics : Option AggregatedMetrics
  visualization : VizData
  word_count : Nat
  unique_words : Nat
  lexical_diversity : ℚ
deriving DecidableEq

/-- The canonical zero-valued result returned for an empty token sequence
(lines 217-235): all metric counts 0, empty window list, empty aggregate,
empty visualization, zero word counts and zero lexical diversity. -/
def zeroAnalysisResult : AnalysisResult :=
  { full_metrics := zeroMetrics
    window_metrics := []
    aggregated_metrics := none
    visualization := { nodes := [], links := [] }
    word_count := 0
    unique_words := 0
    lexical_diversity := 0 }

/-- `SpeechGraphAnalyzer.analyze_full_transcript` (lines 210-258) with
window size `W` and step size `S`.  Note line 242: the sliding-window
analysis runs only when the token count reaches `W`; shorter (nonempty)
transcripts get an empty `window_metrics` list. -/
def analyze_full_transcript (W S : Nat) (text : String) : AnalysisResult :=
  let words := preprocess_text text
  if words = [] then zeroAnalysisResult
  else
    let full_graph := build_speech_graph words
    let window_metrics := if W ≤ words.length then sliding_window_analysis W S text else []
    { full_metrics := analyze_window words
      window_metrics := window_metrics
      aggregated_metrics := aggregate_window_metrics (window_metrics.map (fun w => w.metrics))
      visualization := generate_visualization_data words
      word_count := words.length
      unique_words := number_of_nodes full_graph
      lexical_diversity :=
        if 0 < words.length then (number_of_nodes full_graph : ℚ) / (words.length : ℚ)
        else 0 }

/-- A 29-token transcript (29 two-letter words), below the default window
size of 30. -/
def shortTranscript29 : String :=
  "aa bb cc dd ee ff gg hh ii jj kk ll mm nn oo pp qq rr ss tt uu vv ww xx yy zz ab cd ef"

end SpeechGraphAnalyzer

namespace SpeechGraphAnalyzer

theorem mem_insertNode {ns : List String} {x y : String} :
    y ∈ insertNode ns x ↔ y ∈ ns ∨ y = x := by
  unfold insertNode
  by_cases h : x ∈ ns <;> simp [h]
  exact fun hyx => hyx ▸ h

theorem insertNode_nodup {ns : List String} {x : String} (h : ns.Nodup) :
    (insertNode ns x).Nodup := by
  unfold insertNode
  by_cases hx : x ∈ ns <;> simp [hx, List.nodup_append, h]

theorem foldl_insert_mem (es : SpeechGraph) (ns0 : List String) (y : String) :
    y ∈ es.foldl (fun ns e => insertNode (insertNode ns e.1.1) e.1.2) ns0 ↔
      y ∈ ns0 ∨ ∃ e ∈ es, y = e.1.1 ∨ y = e.1.2 := by
  induction es generalizing ns0 with
  | nil => simp
  | cons a t ih =>
      rw [List.foldl_cons, ih]
      simp only [mem_insertNode, List.mem_cons, List.exists_mem_cons_iff]
      aesop

theorem mem_graphNodes {es : SpeechGraph} {y : String} :
    y ∈ graphNodes es ↔ ∃ p ∈ keys es, y = p.1 ∨ y = p.2 := by
  unfold graphNodes keys
  rw [foldl_insert_mem]
  simp

theorem graphNodes_nodup (es : SpeechGraph) : (graphNodes es).Nodup := by
  unfold graphNodes
  suffices h : ∀ ns0 : List String, ns0.Nodup →
      (es.foldl (fun ns e => insertNode (insertNode ns e.1.1) e.1.2) ns0).Nodup by
    exact h [] (by simp)
  induction es with
  | nil => intro ns0 h0; simpa using h0
  | cons a t ih =>
      intro ns0 h0
      rw [List.foldl_cons]
      exact ih _ (insertNode_nodup (insertNode_nodup h0))

theorem keys_addEdge (es : SpeechGraph) (e : String × String) :
    keys (addEdge es e) = if e ∈ keys es then keys es else keys es ++ [e] := by
  unfold addEdge keys
  by_cases h : e ∈ es.map Prod.fst <;> simp [h]
  intro a b n _
  by_cases hp : (a, b) = e <;> simp [hp]

theorem mem_keys_addEdge {es : SpeechGraph} {e p : String × String} :
    p ∈ keys (addEdge es e) ↔ p ∈ keys es ∨ p = e := by
  rw [keys_addEdge]
  by_cases h : e ∈ keys es <;> simp [h]
  intro hp
  exact hp ▸ h

theorem keys_addEdge_nodup {es : SpeechGraph} {e : String × String}
    (h : (keys es).Nodup) : (keys (addEdge es e)).Nodup := by
  rw [keys_addEdge]
  by_cases he : e ∈ keys es <;> simp [he, List.nodup_append, h]

theorem keys_foldl_mem (l : List (String × String)) (es : SpeechGraph)
    {p : String × String} :
    p ∈ keys (l.foldl addEdge es) ↔ p ∈ keys es ∨ p ∈ l := by
  induction l generalizing es with
  | nil => simp
  | cons a t ih =>
      rw [List.foldl_cons, ih]
      simp [mem_keys_addEdge]
      aesop

theorem mem_keys_build {ws : List String} {p : String × String} :
    p ∈ keys (build_speech_graph ws) ↔ p ∈ ws.zip ws.tail := by
  unfold build_speech_graph
  rw [keys_foldl_mem]
  simp [keys]

theorem keys_build_nodup (ws : List String) :
    (keys (build_speech_graph ws)).Nodup := by
  unfold build_speech_graph
  suffices h : ∀ (l : List (String × String)) (es : SpeechGraph),
      (keys es).Nodup → (keys (l.foldl addEdge es)).Nodup by
    exact h _ [] (by simp [keys])
  intro l
  induction l with
  | nil => intro es h; simpa using h
  | cons a t ih =>
      intro es h
      rw [List.foldl_cons]
      exact ih _ (keys_addEdge_nodup h)

end SpeechGraphAnalyzer

namespace SpeechGraphAnalyzer

theorem mem_iff_exists_pair :
    ∀ (t : List String) (a b x : String),
      x ∈ a :: b :: t ↔ ∃ p ∈ (a :: b :: t).zip (b :: t), x = p.1 ∨ x = p.2
  | [], a, b, x => by simp
  | c :: t, a, b, x => by
      have ih := mem_iff_exists_pair t b c x
      constructor
      · intro hx
        rcases List.mem_cons.1 hx with h | h
        · exact ⟨(a, b), by simp, Or.inl h⟩
        · rcases ih.1 h with ⟨p, hp, hxp⟩
          exact ⟨p, by simp [List.zip_cons_cons] at hp ⊢; tauto, hxp⟩
      · rintro ⟨p, hp, hxp⟩
        rw [List.zip_cons_cons, List.mem_cons] at hp
        rcases hp with hp | hp
        · subst hp
          rcases hxp with h | h <;> simp [h]
        · have : x ∈ b :: c :: t := ih.2 ⟨p, hp, hxp⟩
          exact List.mem_cons_of_mem a this

theorem mem_graphNodes_build {ws : List String} (h : 2 ≤ ws.length) {x : String} :
    x ∈ graphNodes (build_speech_graph ws) ↔ x ∈ ws := by
  match ws, h with
  | a :: b :: t, _ =>
      rw [mem_graphNodes, mem_iff_exists_pair]
      constructor
      · rintro ⟨p, hp, hxp⟩
        exact ⟨p, mem_keys_build.1 hp, hxp⟩
      · rintro ⟨p, hp, hxp⟩
        exact ⟨p, mem_keys_build.2 hp, hxp⟩

/-- For a token sequence that is not a singleton, the number of graph nodes
equals the number of distinct tokens. -/
theorem number_of_nodes_build (ws : List String) (h : ws.length ≠ 1) :
    number_of_nodes (build_speech_graph ws) = ws.dedup.length := by
  match ws, h with
  | [], _ => rfl
  | a :: b :: t, _ =>
      unfold number_of_nodes
      have hperm : List.Perm (graphNodes (build_speech_graph (a :: b :: t))) (a :: b :: t).dedup := by
        rw [List.perm_ext_iff_of_nodup (graphNodes_nodup _) (List.nodup_dedup _)]
        intro x
        rw [List.mem_dedup]
        exact mem_graphNodes_build (by simp)
      exact hperm.length_eq

end SpeechGraphAnalyzer

namespace SpeechGraphAnalyzer

/-- The `L1` count of `count_loops` — the number of self-loop edges of the
built graph — equals the number of distinct tokens that are somewhere
immediately followed by themselves. -/
theorem count_loops_L1 (ws : List String) :
    (count_loops (build_speech_graph ws)).L1 =
      (((ws.zip ws.tail).filter (fun p => p.1 == p.2)).dedup).length := by
  have hnd : ((keys (build_speech_graph ws)).filter (fun p => p.1 == p.2)).Nodup :=
    (keys_build_nodup ws).filter _
  have hperm : List.Perm
      ((keys (build_speech_graph ws)).filter (fun p => p.1 == p.2))
      (((ws.zip ws.tail).filter (fun p => p.1 == p.2)).dedup) := by
    rw [List.perm_ext_iff_of_nodup hnd (List.nodup_dedup _)]
    intro p
    rw [List.mem_dedup, List.mem_filter, List.mem_filter, mem_keys_build]
  have hL1 : (count_loops (build_speech_graph ws)).L1 =
      ((keys (build_speech_graph ws)).filter (fun p => p.1 == p.2)).length := rfl
  rw [hL1, hperm.length_eq]

/-- C2 counterexample: on the singleton token sequence `["aa"]` the built
graph has 0 nodes (nodes are only created by edges, and a length-1 sequence
has no adjacent pair), while the number of distinct tokens is 1. -/
theorem c2_counterexample :
    ¬ (number_of_nodes (build_speech_graph ["aa"]) =
        (["aa"] : List String).dedup.length) := by decide

/-- C2 (amended): for every token sequence that is not a singleton, the
`node_count` of the built graph equals the number of distinct tokens.  (For
a length-1 sequence the graph has 0 nodes, one fewer than the distinct
count.) -/
theorem c2_node_count_eq_distinct (ws : List String) (h : ws.length ≠ 1) :
    number_of_nodes (build_speech_graph ws) = ws.dedup.length :=
  number_of_nodes_build ws h

/-- Witness for `c2_node_count_eq_distinct` at the concrete sequence
`["aa", "bb", "aa"]` (3 tokens, 2 distinct). -/
theorem c2_witness :
    ((["aa", "bb", "aa"] : List String).length ≠ 1) ∧
      number_of_nodes (build_speech_graph ["aa", "bb", "aa"]) =
        (["aa", "bb", "aa"] : List String).dedup.length :=
  ⟨by decide, c2_node_count_eq_distinct ["aa", "bb", "aa"] (by decide)⟩

/-- C3 counterexample: the token `"xx"` repeated 5 times has 4 adjacent
equal pairs, but the code reports `L1 = 1`: `nx.number_of_selfloops` counts
self-loop edges (distinct self-following tokens), not positions. -/
theorem c3_counterexample :
    (((List.replicate 5 "xx").zip (List.replicate 5 "xx").tail).filter
        (fun p => p.1 == p.2)).length = 4 ∧
      (count_loops (build_speech_graph (List.replicate 5 "xx"))).L1 = 1 := by decide

/-- C3 (amended): `loops.L1` equals the number of distinct tokens `t` such
that `t` is immediately followed by `t` somewhere in the sequence (i.e. the
number of self-loop edges); in particular a token repeated 5 times yields
`L1 = 1`, with `node_count = 1`, `lsc = 1`, `lcc = 1` and `edge_count = 1`. -/
theorem c3_L1_distinct_selfloops :
    (∀ ws : List String,
        (count_loops (build_speech_graph ws)).L1 =
          (((ws.zip ws.tail).filter (fun p => p.1 == p.2)).dedup).length) ∧
      (count_loops (build_speech_graph (List.replicate 5 "xx"))).L1 = 1 ∧
      number_of_nodes (build_speech_graph (List.replicate 5 "xx")) = 1 ∧
      calculate_lsc (build_speech_graph (List.replicate 5 "xx")) = 1 ∧
      calculate_lcc (build_speech_graph (List.replicate 5 "xx")) = 1 ∧
      number_of_edges (build_speech_graph (List.replicate 5 "xx")) = 1 :=
  ⟨count_loops_L1, by decide, by decide, by decide, by decide, by decide⟩

/-- C6: for the token sequence `[aa, bb, aa, bb, cc]` the built graph has
exactly the edges `aa→bb` (weight 2), `bb→aa` (weight 1), `bb→cc`
(weight 1), and its metrics are `node_count = 3`, `lsc = 2`, `lcc = 3`,
`L1 = 0`, `parallel_edges = 1`. -/
theorem c6_example_graph :
    build_speech_graph ["aa", "bb", "aa", "bb", "cc"] =
        [(("aa", "bb"), 2), (("bb", "aa"), 1), (("bb", "cc"), 1)] ∧
      number_of_nodes (build_speech_graph ["aa", "bb", "aa", "bb", "cc"]) = 3 ∧
      calculate_lsc (build_speech_graph ["aa", "bb", "aa", "bb", "cc"]) = 2 ∧
      calculate_lcc (build_speech_graph ["aa", "bb", "aa", "bb", "cc"]) = 3 ∧
      (count_loops (build_speech_graph ["aa", "bb", "aa", "bb", "cc"])).L1 = 0 ∧
      count_parallel_edges (build_speech_graph ["aa", "bb", "aa", "bb", "cc"]) = 1 := by
  decide

end SpeechGraphAnalyzer

namespace SpeechGraphAnalyzer

theorem reachN_self (E : List (String × String)) (n : Nat) (u : String) :
    reachN E n u u = true := by
  cases n <;> simp [reachN]

theorem reachN_fuel_mono {E : List (String × String)} :
    ∀ {n m : Nat} {u v : String}, n ≤ m → reachN E n u v = true →
      reachN E m u v = true := by
  intro n
  induction n with
  | zero =>
      intro m u v _ h0
      have huv : u = v := by simpa [reachN] using h0
      exact huv ▸ reachN_self E m u
  | succ k ih =>
      intro m u v hnm h
      match m, hnm with
      | m' + 1, hnm =>
        rw [reachN] at h ⊢
        simp only [Bool.or_eq_true, List.any_eq_true, Bool.and_eq_true] at h ⊢
        rcases h with h1 | ⟨e, he, h2, h3⟩
        · exact Or.inl h1
        · exact Or.inr ⟨e, he, h2, ih (Nat.le_of_succ_le_succ hnm) h3⟩

theorem reachN_subset {E F : List (String × String)} (hEF : ∀ p ∈ E, p ∈ F) :
    ∀ {n : Nat} {u v : String}, reachN E n u v = true → reachN F n u v = true := by
  intro n
  induction n with
  | zero => intro u v h; simpa [reachN] using h
  | succ k ih =>
      intro u v h
      rw [reachN] at h ⊢
      simp only [Bool.or_eq_true, List.any_eq_true, Bool.and_eq_true] at h ⊢
      rcases h with h1 | ⟨e, he, h2, h3⟩
      · exact Or.inl h1
      · exact Or.inr ⟨e, hEF e he, h2, ih h3⟩

theorem reach_toUndirected {E : List (String × String)} {u v : String}
    (h : reach E u v = true) : reach (toUndirected E) u v = true := by
  simp only [reach] at h ⊢
  have h1 : reachN (toUndirected E) E.length u v = true :=
    reachN_subset (fun p hp => by simp [toUndirected]; exact Or.inl hp) h
  refine reachN_fuel_mono ?_ h1
  simp [toUndirected]

theorem le_foldr_max {l : List Nat} {a : Nat} (h : a ∈ l) : a ≤ l.foldr max 0 := by
  induction l with
  | nil => simp at h
  | cons b t ih =>
      rw [List.foldr_cons]
      rcases List.mem_cons.1 h with h1 | h1
      · rw [h1]; exact Nat.le_max_left _ _
      · exact Nat.le_trans (ih h1) (Nat.le_max_right b _)

theorem foldr_max_le {l : List Nat} {n : Nat} (h : ∀ a ∈ l, a ≤ n) :
    l.foldr max 0 ≤ n := by
  induction l with
  | nil => simp
  | cons b t ih =>
      rw [List.foldr_cons]
      exact Nat.max_le.2 ⟨h b (by simp), ih (fun a ha => h a (by simp [ha]))⟩

theorem filter_length_mono {α : Type} {p q : α → Bool} {l : List α}
    (h : ∀ a ∈ l, p a = true → q a = true) :
    (l.filter p).length ≤ (l.filter q).length := by
  induction l with
  | nil => simp
  | cons a t ih =>
      have iht := ih (fun x hx => h x (by simp [hx]))
      rw [List.filter_cons, List.filter_cons]
      by_cases hp : p a = true
      · rw [if_pos hp, if_pos (h a (by simp) hp)]
        simpa using iht
      · rw [if_neg hp]
        split
        · exact Nat.le_trans iht (by simp)
        · exact iht

theorem foldr_max_map_mono {α : Type} {f g : α → Nat} {l : List α}
    (h : ∀ a ∈ l, f a ≤ g a) :
    (l.map f).foldr max 0 ≤ (l.map g).foldr max 0 := by
  induction l with
  | nil => simp
  | cons a t ih =>
      rw [List.map_cons, List.map_cons, List.foldr_cons, List.foldr_cons]
      exact max_le_max (h a (by simp)) (ih (fun x hx => h x (by simp [hx])))

/-- C7: for every graph with at least one node, the size of the largest
strongly connected component is at least 1, at most the size of the largest
connected component of the undirected projection, which is at most the node
count. -/
theorem c7_lsc_le_lcc_le_nodes (es : SpeechGraph)
    (h : 0 < number_of_nodes es) :
    1 ≤ calculate_lsc es ∧ calculate_lsc es ≤ calculate_lcc es ∧
      calculate_lcc es ≤ number_of_nodes es := by
  have hne : number_of_nodes es ≠ 0 := Nat.pos_iff_ne_zero.1 h
  have hlsc : calculate_lsc es =
      ((graphNodes es).map (fun u =>
        ((graphNodes es).filter
          (fun v => reach (keys es) u v && reach (keys es) v u)).length)).foldr max 0 := by
    rw [calculate_lsc, if_neg hne]
  have hlcc : calculate_lcc es =
      ((graphNodes es).map (fun u =>
        ((graphNodes es).filter
          (fun v => reach (toUndirected (keys es)) u v)).length)).foldr max 0 := by
    rw [calculate_lcc, if_neg hne]
  obtain ⟨u, hu⟩ : ∃ u, u ∈ graphNodes es := List.exists_mem_of_length_pos h
  refine ⟨?_, ?_, ?_⟩
  · rw [hlsc]
    have humem : u ∈ (graphNodes es).filter
        (fun v => reach (keys es) u v && reach (keys es) v u) := by
      rw [List.mem_filter]
      refine ⟨hu, ?_⟩
      simp [reach, reachN_self]
    have h1 : 1 ≤ ((graphNodes es).filter
        (fun v => reach (keys es) u v && reach (keys es) v u)).length :=
      List.length_pos.2 (List.ne_nil_of_mem humem)
    exact Nat.le_trans h1 (le_foldr_max (List.mem_map_of_mem _ hu))
  · rw [hlsc, hlcc]
    apply foldr_max_map_mono
    intro a _
    apply filter_length_mono
    intro v _ hv
    simp only [Bool.and_eq_true] at hv
    exact reach_toUndirected hv.1
  · rw [hlcc]
    apply foldr_max_le
    intro a ha
    rcases List.mem_map.1 ha with ⟨u', _, rfl⟩
    exact List.length_filter_le _ _

/-- Witness for `c7_lsc_le_lcc_le_nodes` at the graph built from
`["aa", "bb"]` (2 nodes, 1 edge). -/
theorem c7_witness :
    0 < number_of_nodes (build_speech_graph ["aa", "bb"]) ∧
      (1 ≤ calculate_lsc (build_speech_graph ["aa", "bb"]) ∧
        calculate_lsc (build_speech_graph ["aa", "bb"]) ≤
          calculate_lcc (build_speech_graph ["aa", "bb"]) ∧
        calculate_lcc (build_speech_graph ["aa", "bb"]) ≤
          number_of_nodes (build_speech_graph ["aa", "bb"])) :=
  ⟨by decide, c7_lsc_le_lcc_le_nodes (build_speech_graph ["aa", "bb"]) (by decide)⟩

end SpeechGraphAnalyzer

namespace SpeechGraphAnalyzer

theorem analyze_window_density (ws : List String) (h : ws ≠ []) :
    (analyze_window ws).density =
      if 0 < number_of_nodes (build_speech_graph ws)
      then nx_density (build_speech_graph ws) else 0 := by
  rw [analyze_window, if_neg h]

theorem analyze_window_nodes (ws : List String) (h : ws ≠ []) :
    (analyze_window ws).nodes = number_of_nodes (build_speech_graph ws) := by
  rw [analyze_window, if_neg h]

theorem endpoints_mem_graphNodes {es : SpeechGraph} {p : String × String}
    (hp : p ∈ keys es) : p.1 ∈ graphNodes es ∧ p.2 ∈ graphNodes es :=
  ⟨mem_graphNodes.2 ⟨p, hp, Or.inl rfl⟩, mem_graphNodes.2 ⟨p, hp, Or.inr rfl⟩⟩

/-- A graph whose edges have no self-loops has at most `n * (n - 1)` edges,
the number of ordered pairs of distinct nodes. -/
theorem edges_le_of_no_selfloop (es : SpeechGraph)
    (hkn : (keys es).Nodup) (hns : ∀ p ∈ keys es, p.1 ≠ p.2) :
    number_of_edges es ≤ number_of_nodes es * (number_of_nodes es - 1) := by
  have hsub : (keys es).toFinset ⊆ (graphNodes es).toFinset.offDiag := by
    intro q hq
    rw [List.mem_toFinset] at hq
    rcases endpoints_mem_graphNodes hq with ⟨h1, h2⟩
    exact Finset.mem_offDiag.2
      ⟨List.mem_toFinset.2 h1, List.mem_toFinset.2 h2, hns q hq⟩
  have hm : number_of_edges es = (keys es).toFinset.card := by
    rw [List.toFinset_card_of_nodup hkn]
    simp [number_of_edges, keys]
  have hn : (graphNodes es).toFinset.card = number_of_nodes es :=
    List.toFinset_card_of_nodup (graphNodes_nodup es)
  calc number_of_edges es = (keys es).toFinset.card := hm
    _ ≤ (graphNodes es).toFinset.offDiag.card := Finset.card_le_card hsub
    _ = (graphNodes es).toFinset.card * (graphNodes es).toFinset.card -
          (graphNodes es).toFinset.card := Finset.offDiag_card _
    _ = number_of_nodes es * (number_of_nodes es - 1) := by
          rw [hn, Nat.mul_sub_one]

theorem nx_density_nonneg (es : SpeechGraph) : 0 ≤ nx_density es := by
  rw [nx_density]
  split
  · exact le_refl 0
  · rename_i hcond
    push_neg at hcond
    have hn2 : 2 ≤ number_of_nodes es := by omega
    apply div_nonneg (by positivity)
    have : (1 : ℚ) ≤ (number_of_nodes es : ℚ) := by exact_mod_cast by omega
    nlinarith

theorem nx_density_le_one (es : SpeechGraph)
    (hkn : (keys es).Nodup) (hns : ∀ p ∈ keys es, p.1 ≠ p.2) :
    nx_density es ≤ 1 := by
  rw [nx_density]
  split
  · exact zero_le_one
  · rename_i hcond
    push_neg at hcond
    have hn2 : 2 ≤ number_of_nodes es := by omega
    have hbound := edges_le_of_no_selfloop es hkn hns
    have hpos : (0 : ℚ) < (number_of_nodes es : ℚ) * ((number_of_nodes es : ℚ) - 1) := by
      have h1 : (2 : ℚ) ≤ (number_of_nodes es : ℚ) := by exact_mod_cast hn2
      nlinarith
    rw [div_le_one hpos]
    have hcast : ((number_of_nodes es * (number_of_nodes es - 1) : Nat) : ℚ) =
        (number_of_nodes es : ℚ) * ((number_of_nodes es : ℚ) - 1) := by
      have h1 : 1 ≤ number_of_nodes es := by omega
      push_cast [Nat.cast_sub h1]
      ring
    calc (number_of_edges es : ℚ)
        ≤ ((number_of_nodes es * (number_of_nodes es - 1) : Nat) : ℚ) := by
          exact_mod_cast hbound
      _ = _ := hcast

/-- C4 counterexample: the token sequence `[aa, aa, bb, bb, aa]` produces
the four edges `aa→aa`, `aa→bb`, `bb→bb`, `bb→aa` on 2 nodes, so
`nx.density = 4 / (2 * 1) = 2 > 1`: self-loops push the reported density
above 1, refuting `density ∈ [0, 1]`. -/
theorem c4_counterexample :
    ¬ ((analyze_window ["aa", "aa", "bb", "bb", "aa"]).density ≤ 1) := by
  have h : (analyze_window ["aa", "aa", "bb", "bb", "aa"]).density =
      nx_density (build_speech_graph ["aa", "aa", "bb", "bb", "aa"]) := by
    rw [analyze_window_density _ (by decide), if_pos (by decide)]
  rw [h, nx_density, if_neg (by decide)]
  have hm : number_of_edges (build_speech_graph ["aa", "aa", "bb", "bb", "aa"]) = 4 := by
    decide
  have hn : number_of_nodes (build_speech_graph ["aa", "aa", "bb", "bb", "aa"]) = 2 := by
    decide
  rw [hm, hn]
  norm_num

/-- C4 (amended): the reported density is always nonnegative and equals 0
whenever `node_count < 2`; it lies in `[0, 1]` whenever the token sequence
has no immediately repeated token (no self-loop edge), but can exceed 1 in
the presence of self-loops. -/
theorem c4_density_range :
    (∀ ws : List String, 0 ≤ (analyze_window ws).density ∧
        ((analyze_window ws).nodes < 2 → (analyze_window ws).density = 0)) ∧
      (∀ ws : List String, (∀ p ∈ ws.zip ws.tail, p.1 ≠ p.2) →
        (analyze_window ws).density ≤ 1) := by
  constructor
  · intro ws
    by_cases hws : ws = []
    · subst hws
      refine ⟨le_refl 0, fun _ => rfl⟩
    · rw [analyze_window_density ws hws, analyze_window_nodes ws hws]
      constructor
      · split
        · exact nx_density_nonneg _
        · exact le_refl 0
      · intro hlt
        split
        · rw [nx_density]
          rw [if_pos (Or.inr (by omega))]
        · rfl
  · intro ws hns
    by_cases hws : ws = []
    · subst hws
      exact zero_le_one
    · rw [analyze_window_density ws hws]
      split
      · exact nx_density_le_one _ (keys_build_nodup ws)
          (fun p hp => hns p (mem_keys_build.1 hp))
      · exact zero_le_one

/-- Witness for `c4_density_range`: the nonnegativity and the `< 2` clause
at the one-node sequence `["aa"]`, and the upper bound at the self-loop-free
sequence `["aa", "bb", "aa"]`. -/
theorem c4_witness :
    ((analyze_window ["aa"]).nodes < 2 ∧ (analyze_window ["aa"]).density = 0) ∧
      ((∀ p ∈ (["aa", "bb", "aa"] : List String).zip ["bb", "aa"], p.1 ≠ p.2) ∧
        (analyze_window ["aa", "bb", "aa"]).density ≤ 1) :=
  ⟨⟨by decide, (c4_density_range.1 ["aa"]).2 (by decide)⟩,
    ⟨by decide, c4_density_range.2 ["aa", "bb", "aa"] (by decide)⟩⟩

end SpeechGraphAnalyzer

namespace SpeechGraphAnalyzer

theorem sum_map_ite_eq_zero {ns : List String} {y : String} (h : y ∉ ns) :
    (ns.map (fun n => if y = n then (1 : Nat) else 0)).sum = 0 := by
  induction ns with
  | nil => rfl
  | cons b t ih =>
      rw [List.map_cons, List.sum_cons]
      have hyb : y ≠ b := fun hyb => h (by simp [hyb])
      rw [if_neg hyb, ih (fun ht => h (by simp [ht]))]

theorem sum_map_ite_eq_one {ns : List String} {y : String} (hnd : ns.Nodup)
    (h : y ∈ ns) :
    (ns.map (fun n => if y = n then (1 : Nat) else 0)).sum = 1 := by
  induction ns with
  | nil => simp at h
  | cons b t ih =>
      rw [List.map_cons, List.sum_cons]
      rcases List.mem_cons.1 h with h1 | h1
      · rw [if_pos h1, sum_map_ite_eq_zero (h1 ▸ (List.nodup_cons.1 hnd).1)]
      · have hyb : y ≠ b := by
          intro hyb
          exact (List.nodup_cons.1 hnd).1 (hyb ▸ h1)
        rw [if_neg hyb, ih (List.nodup_cons.1 hnd).2 h1]

/-- Double counting: summing, over a duplicate-free list of labels covering
`f`'s image on `l`, the number of elements of `l` whose label is `n`, gives
the length of `l`. -/
theorem sum_filter_counts {α : Type} (f : α → String) (l : List α)
    (ns : List String) (hnd : ns.Nodup) (hall : ∀ x ∈ l, f x ∈ ns) :
    (ns.map (fun n => (l.filter (fun x => f x == n)).length)).sum = l.length := by
  induction l with
  | nil => simp
  | cons a t ih =>
      have hsplit : ∀ n : String,
          ((a :: t).filter (fun x => f x == n)).length =
            (if f a = n then 1 else 0) + (t.filter (fun x => f x == n)).length := by
        intro n
        rw [List.filter_cons]
        by_cases hfa : f a = n
        · rw [if_pos (by simpa using hfa), if_pos hfa, List.length_cons]
          omega
        · rw [if_neg (by simpa using hfa), if_neg hfa]
          omega
      have hmap : ns.map (fun n => ((a :: t).filter (fun x => f x == n)).length) =
          ns.map (fun n => (if f a = n then 1 else 0) +
            (t.filter (fun x => f x == n)).length) :=
        List.map_congr_left (fun n _ => hsplit n)
      rw [hmap, List.sum_map_add, sum_map_ite_eq_one hnd (hall a (by simp)),
        ih (fun x hx => hall x (by simp [hx])), List.length_cons]
      omega

/-- `sum(dict(G.degree()).values()) = 2 * E`: every directed edge
contributes 1 to its source's out-degree and 1 to its target's in-degree,
self-loops included. -/
theorem degreeSum_eq (es : SpeechGraph) :
    degreeSum es = 2 * number_of_edges es := by
  have hout : ((graphNodes es).map (fun n =>
      ((keys es).filter (fun p => p.1 == n)).length)).sum = (keys es).length :=
    sum_filter_counts Prod.fst (keys es) (graphNodes es) (graphNodes_nodup es)
      (fun p hp => (endpoints_mem_graphNodes hp).1)
  have hin : ((graphNodes es).map (fun n =>
      ((keys es).filter (fun p => p.2 == n)).length)).sum = (keys es).length :=
    sum_filter_counts Prod.snd (keys es) (graphNodes es) (graphNodes_nodup es)
      (fun p hp => (endpoints_mem_graphNodes hp).2)
  have hdeg : degreeSum es =
      ((graphNodes es).map (fun n =>
        ((keys es).filter (fun p => p.1 == n)).length)).sum +
      ((graphNodes es).map (fun n =>
        ((keys es).filter (fun p => p.2 == n)).length)).sum := by
    rw [degreeSum, ← List.sum_map_add]
    rfl
  rw [hdeg, hout, hin]
  have : (keys es).length = number_of_edges es := by simp [keys, number_of_edges]
  omega

theorem analyze_window_avg_degree (ws : List String) (h : ws ≠ []) :
    (analyze_window ws).avg_degree =
      if 0 < number_of_nodes (build_speech_graph ws)
      then (degreeSum (build_speech_graph ws) : ℚ) /
        (number_of_nodes (build_speech_graph ws) : ℚ)
      else 0 := by
  rw [analyze_window, if_neg h]

/-- C10: the reported average degree equals `2 * edge_count / node_count`
when the built graph has at least one node (each directed edge, self-loops
included, contributes 1 to its source's out-degree and 1 to its target's
in-degree), and equals 0 when the graph has no nodes. -/
theorem c10_avg_degree (ws : List String) :
    (0 < number_of_nodes (build_speech_graph ws) →
      (analyze_window ws).avg_degree =
        2 * (number_of_edges (build_speech_graph ws) : ℚ) /
          (number_of_nodes (build_speech_graph ws) : ℚ)) ∧
      (number_of_nodes (build_speech_graph ws) = 0 →
        (analyze_window ws).avg_degree = 0) := by
  by_cases hws : ws = []
  · subst hws
    refine ⟨fun h => absurd h (by decide), fun _ => rfl⟩
  · rw [analyze_window_avg_degree ws hws]
    constructor
    · intro h
      rw [if_pos h, degreeSum_eq]
      push_cast
      ring
    · intro h
      rw [if_neg (by omega)]

/-- Witness for `c10_avg_degree` at `["aa", "bb"]` (2 nodes, 1 edge,
average degree 1). -/
theorem c10_witness :
    0 < number_of_nodes (build_speech_graph ["aa", "bb"]) ∧
      (analyze_window ["aa", "bb"]).avg_degree =
        2 * (number_of_edges (build_speech_graph ["aa", "bb"]) : ℚ) /
          (number_of_nodes (build_speech_graph ["aa", "bb"]) : ℚ) :=
  ⟨by decide, (c10_avg_degree ["aa", "bb"]).1 (by decide)⟩

end SpeechGraphAnalyzer

namespace SpeechGraphAnalyzer

theorem aft_word_count (W S : Nat) (text : String)
    (h : preprocess_text text ≠ []) :
    (analyze_full_transcript W S text).word_count =
      (preprocess_text text).length := by
  simp only [analyze_full_transcript, if_neg h]

theorem aft_unique_words (W S : Nat) (text : String)
    (h : preprocess_text text ≠ []) :
    (analyze_full_transcript W S text).unique_words =
      number_of_nodes (build_speech_graph (preprocess_text text)) := by
  simp only [analyze_full_transcript, if_neg h]

theorem aft_lexical_diversity (W S : Nat) (text : String)
    (h : preprocess_text text ≠ []) :
    (analyze_full_transcript W S text).lexical_diversity =
      if 0 < (preprocess_text text).length
      then (number_of_nodes (build_speech_graph (preprocess_text text)) : ℚ) /
        ((preprocess_text text).length : ℚ)
      else 0 := by
  simp only [analyze_full_transcript, if_neg h]

theorem aft_window_metrics (W S : Nat) (text : String)
    (h : preprocess_text text ≠ []) :
    (analyze_full_transcript W S text).window_metrics =
      if W ≤ (preprocess_text text).length
      then sliding_window_analysis W S text else [] := by
  simp only [analyze_full_transcript, if_neg h]

theorem number_of_nodes_pos {ws : List String} (h : 2 ≤ ws.length) :
    0 < number_of_nodes (build_speech_graph ws) := by
  match ws, h with
  | a :: b :: t, h =>
      have ha : a ∈ graphNodes (build_speech_graph (a :: b :: t)) :=
        (mem_graphNodes_build (by simp)).2 (by simp)
      exact List.length_pos.2 (List.ne_nil_of_mem ha)

/-- C5 counterexample: the one-token transcript `"hello"` has
`word_count = 1 > 0` but `lexical_diversity = 0` (the one-word graph has no
nodes), refuting `lexical_diversity ∈ (0, 1]` for `word_count > 0`. -/
theorem c5_counterexample :
    (analyze_full_transcript 30 3 "hello").word_count = 1 ∧
      (analyze_full_transcript 30 3 "hello").lexical_diversity = 0 := by
  have h : preprocess_text "hello" = ["hello"] := by decide
  constructor
  · decide
  · rw [aft_lexical_diversity 30 3 "hello" (by rw [h]; simp), h,
      if_pos (by simp)]
    have h3 : number_of_nodes (build_speech_graph ["hello"]) = 0 := by decide
    rw [h3]
    norm_num

/-- C5 (amended): `lexical_diversity` equals
`unique_word_count / word_count` when `word_count > 0` and 0 when
`word_count = 0`; it lies in `(0, 1]` whenever `word_count ≥ 2`, but equals
0 when `word_count = 1`, since the one-token graph has no nodes. -/
theorem c5_lexical_diversity (W S : Nat) (text : String) :
    ((analyze_full_transcript W S text).word_count = 0 →
      (analyze_full_transcript W S text).lexical_diversity = 0) ∧
      (0 < (analyze_full_transcript W S text).word_count →
        (analyze_full_transcript W S text).lexical_diversity =
          ((analyze_full_transcript W S text).unique_words : ℚ) /
            ((analyze_full_transcript W S text).word_count : ℚ)) ∧
      (2 ≤ (analyze_full_transcript W S text).word_count →
        0 < (analyze_full_transcript W S text).lexical_diversity ∧
          (analyze_full_transcript W S text).lexical_diversity ≤ 1) := by
  by_cases h : preprocess_text text = []
  · have hz : analyze_full_transcript W S text = zeroAnalysisResult := by
      simp [analyze_full_transcript, h]
    rw [hz]
    refine ⟨fun _ => rfl, fun h1 => absurd h1 (by decide), fun h1 => absurd h1 (by decide)⟩
  · have hlen : 0 < (preprocess_text text).length := List.length_pos.2 h
    rw [aft_word_count W S text h, aft_unique_words W S text h,
      aft_lexical_diversity W S text h, if_pos hlen]
    refine ⟨fun h1 => absurd h1 (by omega), fun _ => rfl, ?_⟩
    intro h2
    have hpos := number_of_nodes_pos h2
    have hle : number_of_nodes (build_speech_graph (preprocess_text text)) ≤
        (preprocess_text text).length := by
      rw [number_of_nodes_build _ (by omega)]
      exact (List.dedup_sublist _).length_le
    constructor
    · apply div_pos (by exact_mod_cast hpos) (by exact_mod_cast hlen)
    · rw [div_le_one (by exact_mod_cast hlen)]
      exact_mod_cast hle

/-- Witness for `c5_lexical_diversity` at the two-token transcript
`"aa bb"`. -/
theorem c5_witness :
    2 ≤ (analyze_full_transcript 30 3 "aa bb").word_count ∧
      (0 < (analyze_full_transcript 30 3 "aa bb").lexical_diversity ∧
        (analyze_full_transcript 30 3 "aa bb").lexical_diversity ≤ 1) :=
  ⟨by decide, (c5_lexical_diversity 30 3 "aa bb").2.2 (by decide)⟩

/-- C8: when the tokenization of the input is empty, `analyze_full_transcript`
returns the canonical zero-valued result: all metric counts 0, zero word
counts, zero lexical diversity, empty window-metrics list, empty aggregate
and empty visualization.  (The function is total, so no error is raised.) -/
theorem c8_empty_tokens_zero_result (W S : Nat) (text : String)
    (h : preprocess_text text = []) :
    analyze_full_transcript W S text = zeroAnalysisResult := by
  simp [analyze_full_transcript, h]

/-- Witness for `c8_empty_tokens_zero_result` at the empty transcript. -/
theorem c8_witness :
    preprocess_text "" = [] ∧
      analyze_full_transcript 30 3 "" = zeroAnalysisResult :=
  ⟨by decide, c8_empty_tokens_zero_result 30 3 "" (by decide)⟩

/-- C1 counterexample: `shortTranscript29` tokenizes to 29 tokens (fewer
than the default window size 30, nonempty), yet the `window_metrics` list
of the full analysis is empty — not a single window with offsets `[0, 29)`:
`analyze_full_transcript` line 242 skips windowing entirely below the
window size. -/
theorem c1_counterexample :
    (preprocess_text shortTranscript29).length = 29 ∧
      (analyze_full_transcript 30 3 shortTranscript29).window_metrics = [] := by
  constructor
  · decide
  · decide

/-- C1 (amended): for a nonempty token sequence shorter than the window
size, `sliding_window_analysis` emits exactly one window record covering
the whole sequence, but without `window_start`/`window_end` offsets; and
the `window_metrics` list of `analyze_full_transcript` is empty for such
transcripts. -/
theorem c1_short_transcript_windows (W S : Nat) (text : String)
    (h0 : preprocess_text text ≠ [])
    (h : (preprocess_text text).length < W) :
    sliding_window_analysis W S text =
        [{ metrics := analyze_window (preprocess_text text),
           window_start := none, window_end := none }] ∧
      (analyze_full_transcript W S text).window_metrics = [] := by
  constructor
  · simp only [sliding_window_analysis, if_pos h]
  · rw [aft_window_metrics W S text h0, if_neg (by omega)]

/-- Witness for `c1_short_transcript_windows` at the 29-token transcript. -/
theorem c1_witness :
    (preprocess_text shortTranscript29 ≠ [] ∧
        (preprocess_text shortTranscript29).length < 30) ∧
      (sliding_window_analysis 30 3 shortTranscript29 =
          [{ metrics := analyze_window (preprocess_text shortTranscript29),
             window_start := none, window_end := none }] ∧
        (analyze_full_transcript 30 3 shortTranscript29).window_metrics = []) :=
  ⟨⟨by decide, by decide⟩,
    c1_short_transcript_windows 30 3 shortTranscript29 (by decide) (by decide)⟩

end SpeechGraphAnalyzer

namespace SpeechGraphAnalyzer

theorem foldl_min_le_init (l : List ℚ) : ∀ a : ℚ, l.foldl min a ≤ a := by
  induction l with
  | nil => simp
  | cons b t ih =>
      intro a
      rw [List.foldl_cons]
      exact le_trans (ih (min a b)) (min_le_left a b)

theorem foldl_min_le_mem (l : List ℚ) :
    ∀ (a y : ℚ), y ∈ l → l.foldl min a ≤ y := by
  induction l with
  | nil => intro a y hy; simp at hy
  | cons b t ih =>
      intro a y hy
      rw [List.foldl_cons]
      rcases List.mem_cons.1 hy with h1 | h1
      · subst h1
        exact le_trans (foldl_min_le_init t _) (min_le_right a y)
      · exact ih _ y h1

theorem listMin_le_mem {l : List ℚ} {y : ℚ} (hy : y ∈ l) : listMin l ≤ y := by
  match l, hy with
  | x :: xs, hy =>
      rw [listMin]
      rcases List.mem_cons.1 hy with h1 | h1
      · exact h1 ▸ foldl_min_le_init xs x
      · exact foldl_min_le_mem xs x y h1

theorem init_le_foldl_max (l : List ℚ) : ∀ a : ℚ, a ≤ l.foldl max a := by
  induction l with
  | nil => simp
  | cons b t ih =>
      intro a
      rw [List.foldl_cons]
      exact le_trans (le_max_left a b) (ih (max a b))

theorem mem_le_foldl_max (l : List ℚ) :
    ∀ (a y : ℚ), y ∈ l → y ≤ l.foldl max a := by
  induction l with
  | nil => intro a y hy; simp at hy
  | cons b t ih =>
      intro a y hy
      rw [List.foldl_cons]
      rcases List.mem_cons.1 hy with h1 | h1
      · subst h1
        exact le_trans (le_max_right a y) (init_le_foldl_max t _)
      · exact ih _ y h1

theorem mem_le_listMax {l : List ℚ} {y : ℚ} (hy : y ∈ l) : y ≤ listMax l := by
  match l, hy with
  | x :: xs, hy =>
      rw [listMax]
      rcases List.mem_cons.1 hy with h1 | h1
      · exact h1 ▸ init_le_foldl_max xs x
      · exact mem_le_foldl_max xs x y h1

theorem mul_length_le_sum {l : List ℚ} {m : ℚ} (h : ∀ y ∈ l, m ≤ y) :
    m * (l.length : ℚ) ≤ l.sum := by
  induction l with
  | nil => simp
  | cons b t ih =>
      have iht := ih (fun y hy => h y (by simp [hy]))
      have hb : m ≤ b := h b (by simp)
      rw [List.sum_cons, List.length_cons]
      push_cast
      nlinarith

theorem sum_le_mul_length {l : List ℚ} {M : ℚ} (h : ∀ y ∈ l, y ≤ M) :
    l.sum ≤ M * (l.length : ℚ) := by
  induction l with
  | nil => simp
  | cons b t ih =>
      have iht := ih (fun y hy => h y (by simp [hy]))
      have hb : b ≤ M := h b (by simp)
      rw [List.sum_cons, List.length_cons]
      push_cast
      nlinarith

/-- For a nonempty rational list, the minimum is at most the average, which
is at most the maximum. -/
theorem listMin_le_listAvg_le_listMax {l : List ℚ} (h : l ≠ []) :
    listMin l ≤ listAvg l ∧ listAvg l ≤ listMax l := by
  have hlen : 0 < l.length := List.length_pos.2 h
  have hlenq : (0 : ℚ) < (l.length : ℚ) := by exact_mod_cast hlen
  rw [listAvg, if_neg (by omega)]
  constructor
  · rw [le_div_iff₀ hlenq]
    exact mul_length_le_sum (fun y hy => listMin_le_mem hy)
  · rw [div_le_iff₀ hlenq]
    exact sum_le_mul_length (fun y hy => mem_le_listMax hy)

/-- C9: the aggregator returns an empty aggregate (no keys) for the empty
window list, and on every nonempty window list the aggregate satisfies
`min ≤ avg ≤ max` for each of the six fields `node_count`, `edge_count`,
`lsc`, `lcc`, `density` and `avg_degree`. -/
theorem c9_aggregate_min_avg_max :
    aggregate_window_metrics [] = none ∧
      ∀ ms : List Metrics, ms ≠ [] →
        (aggregate_window_metrics ms).isSome = true ∧
          ∀ a ∈ aggregate_window_metrics ms,
            (a.min_nodes ≤ a.avg_nodes ∧ a.avg_nodes ≤ a.max_nodes) ∧
              (a.min_edges ≤ a.avg_edges ∧ a.avg_edges ≤ a.max_edges) ∧
              (a.min_lsc ≤ a.avg_lsc ∧ a.avg_lsc ≤ a.max_lsc) ∧
              (a.min_lcc ≤ a.avg_lcc ∧ a.avg_lcc ≤ a.max_lcc) ∧
              (a.min_density ≤ a.avg_density ∧ a.avg_density ≤ a.max_density) ∧
              (a.min_avg_degree ≤ a.avg_avg_degree ∧
                a.avg_avg_degree ≤ a.max_avg_degree) := by
  refine ⟨rfl, ?_⟩
  intro ms hms
  rw [aggregate_window_metrics, if_neg hms]
  refine ⟨rfl, ?_⟩
  intro a ha
  have hmap : ∀ f : Metrics → ℚ, ms.map f ≠ [] := by
    intro f hf
    exact hms (by simpa using hf)
  rw [Option.mem_def, Option.some_inj] at ha
  subst ha
  exact ⟨listMin_le_listAvg_le_listMax (hmap _),
    listMin_le_listAvg_le_listMax (hmap _),
    listMin_le_listAvg_le_listMax (hmap _),
    listMin_le_listAvg_le_listMax (hmap _),
    listMin_le_listAvg_le_listMax (hmap _),
    listMin_le_listAvg_le_listMax (hmap _)⟩

/-- Witness for `c9_aggregate_min_avg_max` at the one-record window list
`[zeroMetrics]`. -/
theorem c9_witness :
    ([zeroMetrics] : List Metrics) ≠ [] ∧
      ((aggregate_window_metrics [zeroMetrics]).isSome = true ∧
        ∀ a ∈ aggregate_window_metrics [zeroMetrics],
          (a.min_nodes ≤ a.avg_nodes ∧ a.avg_nodes ≤ a.max_nodes) ∧
            (a.min_edges ≤ a.avg_edges ∧ a.avg_edges ≤ a.max_edges) ∧
            (a.min_lsc ≤ a.avg_lsc ∧ a.avg_lsc ≤ a.max_lsc) ∧
            (a.min_lcc ≤ a.avg_lcc ∧ a.avg_lcc ≤ a.max_lcc) ∧
            (a.min_density ≤ a.avg_density ∧ a.avg_density ≤ a.max_density) ∧
            (a.min_avg_degree ≤ a.avg_avg_degree ∧
              a.avg_avg_degree ≤ a.max_avg_degree)) :=
  ⟨by decide, c9_aggregate_min_avg_max.2 [zeroMetrics] (by decide)⟩

end SpeechGraphAnalyzer
